import Mathlib

/-!
Verification of the Wang-tile constraint painter (`src/tiled/wangpainter.cpp`).

The embedding below fixes the orthogonal (non-hexagonal) map case: in the
source the `hexgonalRenderer` pointer obtained by `dynamic_cast` is null for
orthogonal maps, so every branch guarded by it takes the static-offset-table
path.  Types that live in headers not present in the source tree
(`wangset.h`, `wangfiller.h`, `tilelayer.h`) are modelled from the spec, as
marked on each definition.
-/

namespace Tiled

/-- Modelled from the spec: a WangId holds 8 slots indexed 0-7 (even = edge,
odd = corner), each slot a color value 0-15; `wangset.h` is not under `src/`,
so the packed integer is represented by its slot-color table. -/
def WangId : Type := Fin 8 → Nat

instance : DecidableEq WangId :=
  inferInstanceAs (DecidableEq (Fin 8 → Nat))

/-- The all-zero (fully unconstrained) WangId. -/
def WangId.emptyId : WangId := fun _ => 0

/-- Modelled from the spec: the full-slot sentinel for the mask nibble. -/
def WangId.FULL_MASK : Nat := 15

/-- Modelled from the spec: read the color stored at slot `i` (0 for
out-of-range slots, which are a caller contract violation in the source). -/
def WangId.indexColor (w : WangId) (i : Nat) : Nat :=
  if h : i < 8 then w ⟨i, h⟩ else 0

/-- Modelled from the spec: store color `c` at slot `i`; the packed nibble
keeps only the low 4 bits of the color. -/
def WangId.setIndexColor (w : WangId) (i : Nat) (c : Nat) : WangId :=
  fun j => if j.val = i then c % 16 else w j

/-- Slot classification: odd slots are corners (`WangId::isCorner`). -/
def WangId.isCorner (i : Nat) : Bool := i % 2 = 1

/-- `WangId::oppositeIndex`: the slot across the shared edge or vertex. -/
def WangId.oppositeIndex (i : Nat) : Nat := (i + 4) % 8

/-- Modelled from the spec: corner accessor, corner `c` in 0..3 maps to the
odd slot `2*c + 1`. -/
def WangId.setCornerColor (w : WangId) (c color : Nat) : WangId :=
  w.setIndexColor (c * 2 + 1) color

/-- Modelled from the spec: edge accessor, edge `e` in 0..3 maps to the even
slot `2*e`. -/
def WangId.setEdgeColor (w : WangId) (e color : Nat) : WangId :=
  w.setIndexColor (e * 2) color

def WangId.Top : Nat := 0
def WangId.TopRight : Nat := 1
def WangId.Right : Nat := 2
def WangId.BottomRight : Nat := 3
def WangId.Bottom : Nat := 4
def WangId.BottomLeft : Nat := 5
def WangId.Left : Nat := 6
def WangId.TopLeft : Nat := 7
def WangId.NumIndexes : Nat := 8
def WangId.NumCorners : Nat := 4
def WangId.NumEdges : Nat := 4

/-- `WangFiller::CellInfo`: the desired colors and the per-slot constraint
mask of one grid cell (`wangfiller.h`; fields as used by the painter). -/
structure CellInfo where
  desired : WangId
  mask : WangId
deriving DecidableEq

/-- A cell that no paint operation has touched. -/
def CellInfo.emptyInfo : CellInfo := ⟨WangId.emptyId, WangId.emptyId⟩

/-- The recurring two-line pattern of the source: write `color` into slot `i`
of `desired` and fully mask slot `i`. -/
def CellInfo.applyIndex (info : CellInfo) (i color : Nat) : CellInfo :=
  ⟨info.desired.setIndexColor i color,
   info.mask.setIndexColor i WangId.FULL_MASK⟩

/-- Corner variant of `CellInfo.applyIndex` (`setCornerColor` on both). -/
def CellInfo.applyCorner (info : CellInfo) (c color : Nat) : CellInfo :=
  ⟨info.desired.setCornerColor c color,
   info.mask.setCornerColor c WangId.FULL_MASK⟩

/-- Edge variant of `CellInfo.applyIndex` (`setEdgeColor` on both). -/
def CellInfo.applyEdge (info : CellInfo) (e color : Nat) : CellInfo :=
  ⟨info.desired.setEdgeColor e color,
   info.mask.setEdgeColor e WangId.FULL_MASK⟩

/-- The sparse cell store of `Grid<WangFiller::CellInfo>`: coordinates not
present map to `none` and read as the all-zero `CellInfo`. -/
def Grid : Type := Int × Int → Option CellInfo

def Grid.emptyGrid : Grid := fun _ => none

/-- `Grid::get`: absent cells read as default-constructed `CellInfo`. -/
def Grid.get (g : Grid) (p : Int × Int) : CellInfo :=
  (g p).getD CellInfo.emptyInfo

/-- `Grid::set`: writing creates the cell if it was absent. -/
def Grid.set (g : Grid) (p : Int × Int) (v : CellInfo) : Grid :=
  fun q => if q = p then some v else g q

/-- `QRegion` as the characteristic function of its coordinate set. -/
def Region : Type := Int × Int → Bool

def Region.emptyRegion : Region := fun _ => false

/-- `region += QRect(p, QSize(1, 1))`. -/
def Region.add (r : Region) (p : Int × Int) : Region :=
  fun q => if q = p then true else r q

/-- `WangFiller::FillRegion`: the in-progress constraint grid plus the set of
touched coordinates. -/
structure FillRegion where
  grid : Grid
  region : Region

/-- A default-constructed `FillRegion`. -/
def FillRegion.emptyFill : FillRegion := ⟨Grid.emptyGrid, Region.emptyRegion⟩

/-- One combined write of the painter: transform the cell at `p` and add `p`
to the region (every grid write in the painter is paired with a region add
on the same coordinate, in either order). -/
def FillRegion.touch (fill : FillRegion) (p : Int × Int)
    (f : CellInfo → CellInfo) : FillRegion :=
  ⟨fill.grid.set p (f (fill.grid.get p)), fill.region.add p⟩

/-- The static neighbor offset table `aroundTilePoints` (orthogonal maps):
one offset per slot index 0-7. -/
def aroundTilePoints (i : Nat) : Int × Int :=
  match i with
  | 0 => (0, -1)
  | 1 => (1, -1)
  | 2 => (1, 0)
  | 3 => (1, 1)
  | 4 => (0, 1)
  | 5 => (-1, 1)
  | 6 => (-1, 0)
  | _ => (-1, -1)

/-- The static vertex offset table `aroundVertexPoints`: the 4 cells sharing
the top-left vertex of a cell. -/
def aroundVertexPoints (i : Nat) : Int × Int :=
  match i with
  | 0 => (0, -1)
  | 1 => (0, 0)
  | 2 => (-1, 0)
  | _ => (-1, -1)

/-- `WangPainter::BrushMode`. -/
inductive BrushMode
  | Idle
  | PaintCorner
  | PaintEdge
  | PaintEdgeAndCorner
deriving DecidableEq

/-- `WangSet::Type`. -/
inductive WangSetType
  | Corner
  | Edge
  | Mixed
deriving DecidableEq

/-- Modelled from the spec: the read-only `WangSet` (type tag, color count,
and the stored WangId of every tile); `wangset.h` is not under `src/`. -/
structure WangSet where
  type : WangSetType
  colorCount : Nat
  wangIdByTileId : List WangId
deriving DecidableEq

/-- The `WangPainter` state: active set, current color, brush mode, and the
in-progress fill. -/
structure WangPainter where
  wangSet : Option WangSet
  currentColor : Nat
  brushMode : BrushMode
  currentFill : FillRegion

/-- The brush mode determined by a (possibly null) Wang set's type, as
computed in the body of `setWangSet`. -/
def modeForWangSet (s : Option WangSet) : BrushMode :=
  match s with
  | none => BrushMode.Idle
  | some w =>
    match w.type with
    | WangSetType.Corner => BrushMode.PaintCorner
    | WangSetType.Edge => BrushMode.PaintEdge
    | WangSetType.Mixed => BrushMode.PaintEdgeAndCorner

/-- `WangPainter::setWangSet`: no-op when the argument is the currently
active set; otherwise resets the color and recomputes the brush mode. -/
def WangPainter.setWangSet (painter : WangPainter) (s : Option WangSet) :
    WangPainter :=
  if s = painter.wangSet then painter
  else
    { painter with
      wangSet := s
      currentColor := 0
      brushMode := modeForWangSet s }

/-- `WangPainter::setColor`: no-op when unchanged; for a Mixed set the mode
is derived from where the color is used across all tiles of the set. -/
def WangPainter.setColor (painter : WangPainter) (color : Nat) : WangPainter :=
  if color = painter.currentColor then painter
  else
    match painter.wangSet with
    | none => { painter with currentColor := color }
    | some s =>
      match s.type with
      | WangSetType.Corner =>
        { painter with currentColor := color, brushMode := BrushMode.PaintCorner }
      | WangSetType.Edge =>
        { painter with currentColor := color, brushMode := BrushMode.PaintEdge }
      | WangSetType.Mixed =>
        let inRange := decide (0 < color) && decide (color ≤ s.colorCount)
        let usedAsCorner := inRange && s.wangIdByTileId.any fun w =>
          (List.range 8).any fun i =>
            decide (w.indexColor i = color) && WangId.isCorner i
        let usedAsEdge := inRange && s.wangIdByTileId.any fun w =>
          (List.range 8).any fun i =>
            decide (w.indexColor i = color) && !(WangId.isCorner i)
        if usedAsEdge = usedAsCorner then
          { painter with currentColor := color,
                         brushMode := BrushMode.PaintEdgeAndCorner }
        else if usedAsEdge then
          { painter with currentColor := color,
                         brushMode := BrushMode.PaintEdge }
        else
          { painter with currentColor := color,
                         brushMode := BrushMode.PaintCorner }

/-- `WangPainter::getDesiredDirection`, a pure function of the brush mode. -/
def getDesiredDirection (mode : BrushMode) (initialDirection : Nat) : Nat :=
  match mode with
  | BrushMode.Idle => initialDirection
  | BrushMode.PaintCorner => WangId.TopLeft
  | BrushMode.PaintEdge =>
    match initialDirection with
    | 3 => WangId.Bottom
    | 5 => WangId.Left
    | 7 => WangId.Top
    | 1 => WangId.Right
    | d => d
  | BrushMode.PaintEdgeAndCorner =>
    match initialDirection with
    | 3 => WangId.TopLeft
    | 5 => WangId.TopLeft
    | 1 => WangId.TopLeft
    | d => d

/-- The per-call specialization of `PaintEdgeAndCorner` applied before the
propagation switch in both `setTerrain` and `generateTerrainAt`. -/
def resolveMode (mode : BrushMode) (direction : Nat) : BrushMode :=
  if mode = BrushMode.PaintEdgeAndCorner then
    if WangId.isCorner direction then BrushMode.PaintCorner
    else BrushMode.PaintEdge
  else mode

/-- The `PaintCorner` propagation loop shared by `setTerrain` and the
non-tile-mode branch of `generateTerrainAt` (orthogonal case): each of the 4
cells around the top-left vertex receives the color at corner `(i+2) % 4`. -/
def cornerStep (color : Nat) (pos : Int × Int) (fill : FillRegion) (i : Nat) :
    FillRegion :=
  fill.touch (pos + aroundVertexPoints i)
    (fun info => info.applyCorner ((i + 2) % 4) color)

def paintCornerAt (fill : FillRegion) (color : Nat) (pos : Int × Int) :
    FillRegion :=
  [0, 1, 2, 3].foldl (cornerStep color pos) fill

/-- The `PaintEdge` propagation shared by `setTerrain` and the non-tile-mode
branch of `generateTerrainAt` (orthogonal case): the origin gets the color at
`direction`, the single neighbor across it gets the opposite slot. -/
def paintEdgeAt (fill : FillRegion) (color : Nat) (pos : Int × Int)
    (direction : Nat) : FillRegion :=
  let dirPoint := pos + aroundTilePoints direction
  (fill.touch pos (fun info => info.applyIndex direction color)).touch dirPoint
    (fun info => info.applyIndex (WangId.oppositeIndex direction) color)

/-- The center-cell stamping of the tile-mode branch: all slots of the active
brush mode receive the color. -/
def tileCenter (mode : BrushMode) (color : Nat) (center : CellInfo) :
    CellInfo :=
  match mode with
  | BrushMode.PaintCorner =>
    [0, 1, 2, 3].foldl (fun c i => c.applyCorner i color) center
  | BrushMode.PaintEdge =>
    [0, 1, 2, 3].foldl (fun c i => c.applyEdge i color) center
  | BrushMode.PaintEdgeAndCorner =>
    [0, 1, 2, 3, 4, 5, 6, 7].foldl (fun c i => c.applyIndex i color) center
  | BrushMode.Idle => center

/-- The neighbor update of one tile-mode loop iteration: the opposite slot
and, for edge neighbors in corner-painting modes, the two touching corners
`(i+3) % 8` and `(i+5) % 8`. -/
def tileAdj (mode : BrushMode) (color : Nat) (i : Nat) (adjacent : CellInfo) :
    CellInfo :=
  let adjacent :=
    if WangId.isCorner i ||
        (decide (mode = BrushMode.PaintEdge) ||
         decide (mode = BrushMode.PaintEdgeAndCorner)) then
      adjacent.applyIndex (WangId.oppositeIndex i) color
    else adjacent
  if !WangId.isCorner i &&
      (decide (mode = BrushMode.PaintCorner) ||
       decide (mode = BrushMode.PaintEdgeAndCorner)) then
    (adjacent.applyIndex ((i + 3) % WangId.NumIndexes) color).applyIndex
      ((i + 5) % WangId.NumIndexes) color
  else adjacent

/-- One iteration of the tile-mode neighbor loop; corner neighbors are
skipped entirely in `PaintEdge` mode. -/
def tileStep (mode : BrushMode) (color : Nat) (pos : Int × Int)
    (fill : FillRegion) (i : Nat) : FillRegion :=
  if decide (mode = BrushMode.PaintEdge) && WangId.isCorner i then fill
  else fill.touch (pos + aroundTilePoints i) (tileAdj mode color i)

/-- `WangPainter::generateTerrainAt` for an orthogonal map, as a pure
transformation of the fill (the function mutates no other painter state). -/
def generateTerrainAt (mode : BrushMode) (fill : FillRegion) (color : Nat)
    (pos : Int × Int) (direction : Nat) (useTileMode : Bool) : FillRegion :=
  if useTileMode then
    [0, 1, 2, 3, 4, 5, 6, 7].foldl (tileStep mode color pos)
      (fill.touch pos (tileCenter mode color))
  else if direction = WangId.NumIndexes then fill
  else
    match resolveMode mode direction with
    | BrushMode.PaintCorner => paintCornerAt fill color pos
    | BrushMode.PaintEdge => paintEdgeAt fill color pos direction
    | _ => fill

/-- The five-argument `WangPainter::setTerrain`: set the color, normalize the
direction through the brush mode, then generate terrain into the supplied
fill. -/
def WangPainter.setTerrainFill (painter : WangPainter) (fill : FillRegion)
    (color : Nat) (pos : Int × Int) (directionToGenerate : Nat)
    (useTileMode : Bool) : WangPainter × FillRegion :=
  let painter := painter.setColor color
  let direction := getDesiredDirection painter.brushMode directionToGenerate
  (painter, generateTerrainAt painter.brushMode fill color pos direction
    useTileMode)

/-- The four-argument `WangPainter::setTerrain` overload, painting into the
painter's own in-progress fill. -/
def WangPainter.setTerrain (painter : WangPainter) (color : Nat)
    (pos : Int × Int) (directionToGenerate : Nat) (useTileMode : Bool) :
    WangPainter :=
  let r := painter.setTerrainFill painter.currentFill color pos
    directionToGenerate useTileMode
  { r.1 with currentFill := r.2 }

/-- The three-argument `WangPainter::setTerrain(color, pos, index)`: it first
writes the requested slot into the cell at the painted position (the source
body refers to `p` and `direction`, identifiers its own scope never declares
and which read as the `pos` and `index` parameters), without adding the
position to the region, and then runs the same corner/edge propagation switch
as the non-tile-mode branch of `generateTerrainAt` (orthogonal case). -/
def setTerrainIndex (mode : BrushMode) (fill : FillRegion) (color : Nat)
    (pos : Int × Int) (index : Nat) : FillRegion :=
  let fill : FillRegion :=
    ⟨fill.grid.set pos ((fill.grid.get pos).applyIndex index color),
     fill.region⟩
  match resolveMode mode index with
  | BrushMode.PaintCorner => paintCornerAt fill color pos
  | BrushMode.PaintEdge => paintEdgeAt fill color pos index
  | _ => fill

/-- `WangPainter::clear`: replace the in-progress fill with an empty one. -/
def WangPainter.clear (painter : WangPainter) : WangPainter :=
  { painter with currentFill := FillRegion.emptyFill }

/-- Modelled from the spec: a committed cell of a tile layer (`Cell` of
`map.h` is not under `src/`), carrying its chosen tile and the resolver's
checked flag. -/
structure Cell where
  tile : Option Nat
  checked : Bool
deriving DecidableEq

/-- Modelled from the spec: a tile layer as a sparse map from absolute
coordinates to cells (`tilelayer.h` is not under `src/`). -/
def TileLayer : Type := Int × Int → Option Cell

/-- Modelled from the spec: the external fill resolver, consumed as an opaque
operation from (region, constraint grid) to the list of stamp cells it
produced at their absolute positions (`wangfiller.cpp` is not under
`src/`). -/
def Resolver : Type := Region → Grid → List ((Int × Int) × Cell)

/-- The commit copy loop: every stamp cell that actually received a tile is
written into the target layer at its position; cells without a tile are
skipped.  Modelled from the spec: the bounding-rectangle trim of the stamp
keeps every cell that received a tile, so the loop over the trimmed stamp
writes exactly the tile-bearing cells. -/
def writeCell (ly : TileLayer) (e : (Int × Int) × Cell) : TileLayer :=
  match e.2.tile with
  | none => ly
  | some _ => fun q => if q = e.1 then some e.2 else ly q

def writeStamp (stamp : List ((Int × Int) × Cell)) (layer : TileLayer) :
    TileLayer :=
  stamp.foldl writeCell layer

/-- `WangPainter::commit` for an orthogonal map: the source constructs the
`WangFiller` by dereferencing the active Wang set with no null guard, which
the embedding renders as `none` (the call does not return normally); with an
active set it resolves the fill into a stamp, copies the stamp's tile-bearing
cells into the layer and clears the in-progress fill. -/
def WangPainter.commit (painter : WangPainter) (resolver : Resolver)
    (layer : TileLayer) : Option (TileLayer × WangPainter) :=
  match painter.wangSet with
  | none => none
  | some _ =>
    let stamp := resolver painter.currentFill.region painter.currentFill.grid
    some (writeStamp stamp layer, painter.clear)

/-- The color appears at some corner slot of some tile's stored WangId of the
set (the condition the Mixed-mode scan of `setColor` tests for corners). -/
def colorUsedAsCorner (s : WangSet) (color : Nat) : Prop :=
  ∃ w ∈ s.wangIdByTileId,
    ∃ i, i < 8 ∧ w.indexColor i = color ∧ WangId.isCorner i = true

/-- The color appears at some edge slot of some tile's stored WangId. -/
def colorUsedAsEdge (s : WangSet) (color : Nat) : Prop :=
  ∃ w ∈ s.wangIdByTileId,
    ∃ i, i < 8 ∧ w.indexColor i = color ∧ WangId.isCorner i = false

/-- Concrete fixture: a Corner-type Wang set. -/
def sCornerW : WangSet := ⟨WangSetType.Corner, 3, []⟩

/-- Concrete fixture: an Edge-type Wang set. -/
def sEdgeW : WangSet := ⟨WangSetType.Edge, 3, []⟩

/-- Concrete fixture: a WangId using color 2 only at edge slot `Top`. -/
def wEdgeOnly : WangId := WangId.emptyId.setIndexColor 0 2

/-- Concrete fixture: a Mixed-type Wang set whose single tile uses color 2
only on an edge. -/
def sMixedW : WangSet := ⟨WangSetType.Mixed, 2, [wEdgeOnly]⟩

/-- Concrete fixture: a painter with the Corner set active. -/
def painterCornerW : WangPainter :=
  ⟨some sCornerW, 0, BrushMode.PaintCorner, FillRegion.emptyFill⟩

/-- Concrete fixture: a painter with the Edge set active. -/
def painterEdgeW : WangPainter :=
  ⟨some sEdgeW, 0, BrushMode.PaintEdge, FillRegion.emptyFill⟩

/-- Concrete fixture: a painter with the Mixed set active. -/
def painterMixedW : WangPainter :=
  ⟨some sMixedW, 0, BrushMode.PaintEdgeAndCorner, FillRegion.emptyFill⟩

/-- Concrete fixture: a painter with no active Wang set. -/
def painterIdleW : WangPainter :=
  ⟨none, 0, BrushMode.Idle, FillRegion.emptyFill⟩

/-- Concrete fixture: a painter holding the Corner set with current color 3. -/
def painterColor3 : WangPainter :=
  ⟨some sCornerW, 3, BrushMode.PaintCorner, FillRegion.emptyFill⟩

/-- Concrete fixture: a resolver producing no cells at all. -/
def resolverEmpty : Resolver := fun _ _ => []

/-- Concrete fixture: a tile layer with no cells. -/
def layerEmpty : TileLayer := fun _ => none

/-- The region invariant of the constraint grid: every coordinate whose cell
has any masked slot has been added to the region. -/
def FillInv (fill : FillRegion) : Prop :=
  ∀ q i, i < 8 → (fill.grid.get q).mask.indexColor i ≠ 0 →
    fill.region q = true

/-- Observation predicate: slot `k` of the cell at `p` carries desired color
`color` with a fully set mask. -/
def slotPainted (fill : FillRegion) (p : Int × Int) (k color : Nat) : Prop :=
  (fill.grid.get p).desired.indexColor k = color ∧
  (fill.grid.get p).mask.indexColor k = WangId.FULL_MASK

/-- Observation predicate: slot `k` of the cell at `p` reads the same in both
fills (desired and mask alike). -/
def slotUntouched (fillNew fillOld : FillRegion) (p : Int × Int) (k : Nat) :
    Prop :=
  (fillNew.grid.get p).desired.indexColor k =
    (fillOld.grid.get p).desired.indexColor k ∧
  (fillNew.grid.get p).mask.indexColor k =
    (fillOld.grid.get p).mask.indexColor k

/-! ## Helper lemmas about the store primitives -/

theorem Grid.set_app_self (g : Grid) (p : Int × Int) (v : CellInfo) :
    Grid.set g p v p = some v := by
  simp [Grid.set]

theorem Grid.set_app_ne (g : Grid) (p q : Int × Int) (v : CellInfo)
    (h : q ≠ p) : Grid.set g p v q = g q := by
  simp [Grid.set, h]

theorem Grid.get_set_self (g : Grid) (p : Int × Int) (v : CellInfo) :
    (Grid.set g p v).get p = v := by
  simp [Grid.get, Grid.set]

theorem Grid.get_set_ne (g : Grid) (p q : Int × Int) (v : CellInfo)
    (h : q ≠ p) : (Grid.set g p v).get q = g.get q := by
  simp [Grid.get, Grid.set, h]

theorem Grid.set_set (g : Grid) (p : Int × Int) (v w : CellInfo) :
    (Grid.set g p v).set p w = Grid.set g p w := by
  funext q
  by_cases h : q = p <;> simp [Grid.set, h]

theorem Region.add_app_self (r : Region) (p : Int × Int) :
    Region.add r p p = true := by
  simp [Region.add]

theorem Region.add_app_ne (r : Region) (p q : Int × Int) (h : q ≠ p) :
    Region.add r p q = r q := by
  simp [Region.add, h]

theorem Region.add_mono (r : Region) (p q : Int × Int) (h : r q = true) :
    Region.add r p q = true := by
  by_cases hq : q = p <;> simp [Region.add, hq, h]

theorem FillRegion.touch_grid_ne (fill : FillRegion) (p q : Int × Int)
    (f : CellInfo → CellInfo) (h : q ≠ p) :
    (fill.touch p f).grid q = fill.grid q := by
  simp [FillRegion.touch, Grid.set_app_ne _ _ _ _ h]

theorem FillRegion.touch_get_self (fill : FillRegion) (p : Int × Int)
    (f : CellInfo → CellInfo) :
    (fill.touch p f).grid.get p = f (fill.grid.get p) := by
  simp [FillRegion.touch, Grid.get_set_self]

theorem FillRegion.touch_get_ne (fill : FillRegion) (p q : Int × Int)
    (f : CellInfo → CellInfo) (h : q ≠ p) :
    (fill.touch p f).grid.get q = fill.grid.get q := by
  simp [FillRegion.touch, Grid.get_set_ne _ _ _ _ h]

theorem FillRegion.touch_region_self (fill : FillRegion) (p : Int × Int)
    (f : CellInfo → CellInfo) : (fill.touch p f).region p = true := by
  simp [FillRegion.touch, Region.add_app_self]

theorem FillRegion.touch_region_ne (fill : FillRegion) (p q : Int × Int)
    (f : CellInfo → CellInfo) (h : q ≠ p) :
    (fill.touch p f).region q = fill.region q := by
  simp [FillRegion.touch, Region.add_app_ne _ _ _ h]

theorem FillRegion.touch_region_mono (fill : FillRegion) (p q : Int × Int)
    (f : CellInfo → CellInfo) (h : fill.region q = true) :
    (fill.touch p f).region q = true := by
  simp [FillRegion.touch, Region.add_mono _ _ _ h]

theorem WangId.indexColor_setIndexColor (w : WangId) (i c j : Nat)
    (hj : j < 8) :
    (w.setIndexColor i c).indexColor j =
      if j = i then c % 16 else w.indexColor j := by
  simp [WangId.indexColor, WangId.setIndexColor, hj]

theorem WangId.indexColor_emptyId (j : Nat) :
    WangId.emptyId.indexColor j = 0 := by
  simp [WangId.indexColor, WangId.emptyId]

theorem WangId.setIndexColor_idem (w : WangId) (i c : Nat) :
    (w.setIndexColor i c).setIndexColor i c = w.setIndexColor i c := by
  funext j
  by_cases h : j.val = i <;> simp [WangId.setIndexColor, h]

theorem CellInfo.applyIndex_idem (info : CellInfo) (i c : Nat) :
    (info.applyIndex i c).applyIndex i c = info.applyIndex i c := by
  simp [CellInfo.applyIndex, WangId.setIndexColor_idem]

/-! ## Claim theorems -/

/-- C10: calling `generateTerrainAt` with `useTileMode = false` and the
out-of-range sentinel direction `NumIndexes` is a complete no-op — the
constraint grid and region (the only painter state the function touches) are
returned unchanged. -/
theorem c10_numIndexes_noop (mode : BrushMode) (fill : FillRegion)
    (color : Nat) (pos : Int × Int) :
    generateTerrainAt mode fill color pos WangId.NumIndexes false = fill := by
  rfl

/-- C9: `getDesiredDirection` normalizes the input slot purely as a function
of the brush mode — PaintCorner forces TopLeft for every input; PaintEdge
maps BottomRight, BottomLeft, TopLeft, TopRight to Bottom, Left, Top, Right
and leaves every edge (even) input unchanged; PaintEdgeAndCorner maps
BottomRight, BottomLeft, TopRight to TopLeft and leaves every other input
unchanged; Idle leaves every input unchanged. -/
theorem c9_getDesiredDirection_cases (d : Nat) :
    getDesiredDirection BrushMode.Idle d = d ∧
    getDesiredDirection BrushMode.PaintCorner d = WangId.TopLeft ∧
    (getDesiredDirection BrushMode.PaintEdge WangId.BottomRight =
        WangId.Bottom ∧
      getDesiredDirection BrushMode.PaintEdge WangId.BottomLeft =
        WangId.Left ∧
      getDesiredDirection BrushMode.PaintEdge WangId.TopLeft = WangId.Top ∧
      getDesiredDirection BrushMode.PaintEdge WangId.TopRight =
        WangId.Right ∧
      (WangId.isCorner d = false →
        getDesiredDirection BrushMode.PaintEdge d = d)) ∧
    ((d = WangId.BottomRight ∨ d = WangId.BottomLeft ∨ d = WangId.TopRight →
        getDesiredDirection BrushMode.PaintEdgeAndCorner d = WangId.TopLeft) ∧
      (d ≠ WangId.BottomRight → d ≠ WangId.BottomLeft → d ≠ WangId.TopRight →
        getDesiredDirection BrushMode.PaintEdgeAndCorner d = d)) := by
  refine ⟨rfl, rfl, ⟨rfl, rfl, rfl, rfl, ?_⟩, ?_, ?_⟩
  · intro h
    rcases d with _ | _ | _ | _ | _ | _ | _ | _ | d
    all_goals first
      | rfl
      | exact absurd h (by decide)
  · rintro (rfl | rfl | rfl) <;> rfl
  · intro h1 h2 h3
    rcases d with _ | _ | _ | _ | _ | _ | _ | _ | d
    · rfl
    · exact absurd rfl h3
    · rfl
    · exact absurd rfl h1
    · rfl
    · exact absurd rfl h2
    · rfl
    · rfl
    · rfl

/-- Witness for C9 at concrete inputs: the edge input `Right` is unchanged in
PaintEdge mode. -/
theorem c9_witness :
    getDesiredDirection BrushMode.PaintEdge WangId.Right = WangId.Right :=
  (c9_getDesiredDirection_cases WangId.Right).2.2.1.2.2.2.2 rfl

/-- C5 counterexample: `setWangSet` with the currently active set is an early
return that does not reset the color — painting color 3 being current,
`setWangSet(sCornerW)` leaves the current color at 3, contradicting the
claim that after any call the current color is 0. -/
theorem c5_counterexample :
    (painterColor3.setWangSet (some sCornerW)).currentColor ≠ 0 := by
  decide

/-- C5 amended: for every argument `s` that differs from the currently
active set, `setWangSet(s)` replaces the active set with `s`, resets the
current color to 0, and recomputes the brush mode (Idle when `s` is null,
otherwise by the set's type); when `s` is the active set the call is a
no-op. -/
theorem c5_setWangSet_resets (painter : WangPainter) (s : Option WangSet)
    (h : s ≠ painter.wangSet) :
    (painter.setWangSet s).wangSet = s ∧
    (painter.setWangSet s).currentColor = 0 ∧
    (painter.setWangSet s).brushMode = modeForWangSet s := by
  unfold WangPainter.setWangSet
  rw [if_neg h]
  exact ⟨rfl, rfl, rfl⟩

/-- Witness for C5 amended: activating the Corner set on an idle painter
resets the color to 0. -/
theorem c5_witness :
    (painterIdleW.setWangSet (some sCornerW)).currentColor = 0 :=
  (c5_setWangSet_resets painterIdleW (some sCornerW) (by decide)).2.1

/-- C4: with an active Mixed-type Wang set and an in-range color different
from the current one, `setColor` scans every tile's stored WangId and sets
the brush mode to PaintEdge when the color appears only at edge slots,
PaintCorner when it appears only at corner slots, and PaintEdgeAndCorner
when it appears at both kinds of slot or at neither (in particular when the
color is unused anywhere in the set). -/
theorem c4_setColor_mixed_scan (painter : WangPainter) (s : WangSet)
    (color : Nat) (hs : painter.wangSet = some s)
    (ht : s.type = WangSetType.Mixed) (hne : color ≠ painter.currentColor)
    (h0 : 0 < color) (hcc : color ≤ s.colorCount) :
    (colorUsedAsEdge s color ∧ ¬colorUsedAsCorner s color →
      (painter.setColor color).brushMode = BrushMode.PaintEdge) ∧
    (colorUsedAsCorner s color ∧ ¬colorUsedAsEdge s color →
      (painter.setColor color).brushMode = BrushMode.PaintCorner) ∧
    ((colorUsedAsCorner s color ↔ colorUsedAsEdge s color) →
      (painter.setColor color).brushMode = BrushMode.PaintEdgeAndCorner) := by
  have h0' : decide (0 < color) = true := by simpa using h0
  have hcc' : decide (color ≤ s.colorCount) = true := by simpa using hcc
  have hcornerIff :
      (s.wangIdByTileId.any fun w =>
        (List.range 8).any fun i =>
          decide (w.indexColor i = color) && WangId.isCorner i) = true ↔
        colorUsedAsCorner s color := by
    simp [colorUsedAsCorner, List.any_eq_true, List.mem_range,
      Bool.and_eq_true, decide_eq_true_eq, and_assoc]
  have hedgeIff :
      (s.wangIdByTileId.any fun w =>
        (List.range 8).any fun i =>
          decide (w.indexColor i = color) && !(WangId.isCorner i)) = true ↔
        colorUsedAsEdge s color := by
    simp [colorUsedAsEdge, List.any_eq_true, List.mem_range,
      Bool.and_eq_true, decide_eq_true_eq, Bool.not_eq_true', and_assoc]
  have key : (painter.setColor color).brushMode =
      (if (s.wangIdByTileId.any fun w =>
            (List.range 8).any fun i =>
              decide (w.indexColor i = color) && !(WangId.isCorner i)) =
          (s.wangIdByTileId.any fun w =>
            (List.range 8).any fun i =>
              decide (w.indexColor i = color) && WangId.isCorner i) then
        BrushMode.PaintEdgeAndCorner
      else if (s.wangIdByTileId.any fun w =>
            (List.range 8).any fun i =>
              decide (w.indexColor i = color) && !(WangId.isCorner i)) then
        BrushMode.PaintEdge
      else BrushMode.PaintCorner) := by
    unfold WangPainter.setColor
    rw [if_neg hne, hs]
    dsimp only
    rw [ht]
    dsimp only
    simp only [h0', hcc', Bool.true_and]
    split <;> try rfl
    split <;> rfl
  refine ⟨?_, ?_, ?_⟩
  · rintro ⟨hE, hC⟩
    have he : (s.wangIdByTileId.any fun w =>
        (List.range 8).any fun i =>
          decide (w.indexColor i = color) && !(WangId.isCorner i)) = true :=
      hedgeIff.mpr hE
    have hc : (s.wangIdByTileId.any fun w =>
        (List.range 8).any fun i =>
          decide (w.indexColor i = color) && WangId.isCorner i) = false := by
      simpa using mt hcornerIff.mp hC
    rw [key, he, hc]
    simp
  · rintro ⟨hC, hE⟩
    have hc : (s.wangIdByTileId.any fun w =>
        (List.range 8).any fun i =>
          decide (w.indexColor i = color) && WangId.isCorner i) = true :=
      hcornerIff.mpr hC
    have he : (s.wangIdByTileId.any fun w =>
        (List.range 8).any fun i =>
          decide (w.indexColor i = color) && !(WangId.isCorner i)) = false := by
      simpa using mt hedgeIff.mp hE
    rw [key, he, hc]
    simp
  · intro hIff
    have heq : (s.wangIdByTileId.any fun w =>
        (List.range 8).any fun i =>
          decide (w.indexColor i = color) && !(WangId.isCorner i)) =
        (s.wangIdByTileId.any fun w =>
          (List.range 8).any fun i =>
            decide (w.indexColor i = color) && WangId.isCorner i) := by
      by_cases hE : colorUsedAsEdge s color
      · rw [hedgeIff.mpr hE, hcornerIff.mpr (hIff.mpr hE)]
      · have he := Bool.eq_false_iff.mpr (mt hedgeIff.mp hE)
        have hc := Bool.eq_false_iff.mpr
          (mt hcornerIff.mp fun hC => hE (hIff.mp hC))
        rw [he, hc]
    rw [key, heq]
    simp

/-- Witness for C4: in the Mixed fixture, color 2 is used only on an edge,
so `setColor 2` resolves the brush mode to PaintEdge. -/
theorem c4_witness :
    (painterMixedW.setColor 2).brushMode = BrushMode.PaintEdge :=
  (c4_setColor_mixed_scan painterMixedW sMixedW 2 rfl rfl (by decide)
      (by decide) (by decide)).1
    ⟨⟨wEdgeOnly, by simp [sMixedW], 0, by omega, by decide, by decide⟩,
      by
        rintro ⟨w, hw, i, hi, hcol, hcor⟩
        rw [sMixedW] at hw
        simp only [WangSet.wangIdByTileId, List.mem_singleton] at hw
        subst hw
        interval_cases i <;> revert hcol hcor <;> decide⟩

/-! ## Brush-mode stability under setColor for fixed-type sets -/

theorem setColor_corner_mode (painter : WangPainter) (s : WangSet)
    (color : Nat) (hs : painter.wangSet = some s)
    (ht : s.type = WangSetType.Corner)
    (hm : painter.brushMode = BrushMode.PaintCorner) :
    (painter.setColor color).brushMode = BrushMode.PaintCorner := by
  unfold WangPainter.setColor
  by_cases hc : color = painter.currentColor
  · rw [if_pos hc]; exact hm
  · rw [if_neg hc, hs]
    dsimp only
    rw [ht]

theorem setColor_edge_mode (painter : WangPainter) (s : WangSet)
    (color : Nat) (hs : painter.wangSet = some s)
    (ht : s.type = WangSetType.Edge)
    (hm : painter.brushMode = BrushMode.PaintEdge) :
    (painter.setColor color).brushMode = BrushMode.PaintEdge := by
  unfold WangPainter.setColor
  by_cases hc : color = painter.currentColor
  · rw [if_pos hc]; exact hm
  · rw [if_neg hc, hs]
    dsimp only
    rw [ht]

/-! ## Pointwise reading of the corner-propagation loop -/

theorem cornerStep_get_ne (color : Nat) (pos q : Int × Int)
    (fill : FillRegion) (i : Nat) (h : q ≠ pos + aroundVertexPoints i) :
    (cornerStep color pos fill i).grid.get q = fill.grid.get q :=
  FillRegion.touch_get_ne _ _ _ _ h

theorem cornerStep_get_self (color : Nat) (pos q : Int × Int)
    (fill : FillRegion) (i : Nat) (h : q = pos + aroundVertexPoints i) :
    (cornerStep color pos fill i).grid.get q =
      (fill.grid.get q).applyCorner ((i + 2) % 4) color := by
  subst h
  exact FillRegion.touch_get_self _ _ _

/-- C1: on an orthogonal map with an active Corner-type Wang set, painting
color `C` at corner slot TopLeft of cell `(x, y)` in single-slot mode sets
desired = C with a full mask at exactly one corner slot — the one at corner
index `(i + 2) % 4`, i.e. WangId slot `((i + 2) % 4) * 2 + 1` — on each of
the four cells around the shared vertex, leaves every other slot of those
cells unchanged, and in particular leaves them at mask 0 when the cells were
previously untouched. -/
theorem c1_corner_paint (painter : WangPainter) (s : WangSet)
    (fill : FillRegion) (x y : Int) (C : Nat)
    (hs : painter.wangSet = some s) (ht : s.type = WangSetType.Corner)
    (hm : painter.brushMode = BrushMode.PaintCorner) (hC : C < 16) :
    ∀ i, i < 4 →
      slotPainted
        (painter.setTerrainFill fill C (x, y) WangId.TopLeft false).2
        ((x, y) + aroundVertexPoints i) (((i + 2) % 4) * 2 + 1) C ∧
      (∀ j, j < 8 → j ≠ ((i + 2) % 4) * 2 + 1 →
        slotUntouched
          (painter.setTerrainFill fill C (x, y) WangId.TopLeft false).2 fill
          ((x, y) + aroundVertexPoints i) j) ∧
      (fill.grid ((x, y) + aroundVertexPoints i) = none →
        ∀ j, j < 8 → j ≠ ((i + 2) % 4) * 2 + 1 →
          (((painter.setTerrainFill fill C (x, y) WangId.TopLeft
                  false).2.grid.get
              ((x, y) + aroundVertexPoints i)).mask.indexColor j = 0)) := by
  have hmode : (painter.setColor C).brushMode = BrushMode.PaintCorner :=
    setColor_corner_mode painter s C hs ht hm
  have hr : (painter.setTerrainFill fill C (x, y) WangId.TopLeft false).2 =
      paintCornerAt fill C (x, y) := by
    unfold WangPainter.setTerrainFill
    dsimp only
    rw [hmode]
    rfl
  rw [hr]
  intro i hi
  have hget : (paintCornerAt fill C (x, y)).grid.get
      ((x, y) + aroundVertexPoints i) =
      (fill.grid.get ((x, y) + aroundVertexPoints i)).applyCorner
        ((i + 2) % 4) C := by
    interval_cases i <;>
      simp only [paintCornerAt, List.foldl] <;>
      simp [cornerStep_get_ne, cornerStep_get_self, aroundVertexPoints,
        Prod.mk_add_mk, Prod.mk.injEq]
  refine ⟨?_, ?_, ?_⟩
  · rw [slotPainted, hget]
    have hk : ((i + 2) % 4) * 2 + 1 < 8 := by omega
    simp only [CellInfo.applyCorner, WangId.setCornerColor]
    rw [WangId.indexColor_setIndexColor _ _ _ _ hk,
      WangId.indexColor_setIndexColor _ _ _ _ hk]
    simp [Nat.mod_eq_of_lt hC, WangId.FULL_MASK]
  · intro j hj hjk
    rw [slotUntouched, hget]
    simp only [CellInfo.applyCorner, WangId.setCornerColor]
    rw [WangId.indexColor_setIndexColor _ _ _ _ hj,
      WangId.indexColor_setIndexColor _ _ _ _ hj]
    rw [if_neg hjk, if_neg hjk]
    exact ⟨rfl, rfl⟩
  · intro hnone j hj hjk
    rw [hget]
    simp only [CellInfo.applyCorner, WangId.setCornerColor]
    rw [WangId.indexColor_setIndexColor _ _ _ _ hj, if_neg hjk]
    simp [Grid.get, hnone, CellInfo.emptyInfo, WangId.indexColor_emptyId]

/-- Witness for C1: painting color 3 at TopLeft of (5, 5) over an empty fill
fully masks corner slot 7 (TopLeft) of cell (5, 5) with desired color 3. -/
theorem c1_witness :
    slotPainted
      (painterCornerW.setTerrainFill FillRegion.emptyFill 3 (5, 5)
        WangId.TopLeft false).2
      ((5, 5) + aroundVertexPoints 1) 7 3 :=
  ((c1_corner_paint painterCornerW sCornerW FillRegion.emptyFill 5 5 3 rfl
      rfl rfl (by decide)) 1 (by decide)).1

theorem gDD_paintEdge_even (S : Nat) (h : WangId.isCorner S = false) :
    getDesiredDirection BrushMode.PaintEdge S = S := by
  rcases S with _ | _ | _ | _ | _ | _ | _ | _ | S
  all_goals first
    | rfl
    | exact absurd h (by decide)

theorem paintEdgeAt_spec (fill : FillRegion) (x y : Int) (C S : Nat)
    (hC : C < 16) (hS8 : S < 8) :
    slotPainted (paintEdgeAt fill C (x, y) S) (x, y) S C ∧
    slotPainted (paintEdgeAt fill C (x, y) S) ((x, y) + aroundTilePoints S)
      (WangId.oppositeIndex S) C ∧
    (∀ j, j < 8 → j ≠ S →
      slotUntouched (paintEdgeAt fill C (x, y) S) fill (x, y) j) ∧
    (∀ j, j < 8 → j ≠ WangId.oppositeIndex S →
      slotUntouched (paintEdgeAt fill C (x, y) S) fill
        ((x, y) + aroundTilePoints S) j) ∧
    (∀ q, q ≠ ((x, y) : Int × Int) → q ≠ (x, y) + aroundTilePoints S →
      (paintEdgeAt fill C (x, y) S).grid q = fill.grid q ∧
      (paintEdgeAt fill C (x, y) S).region q = fill.region q) := by
  have hoff : aroundTilePoints S ≠ 0 := by
    interval_cases S <;> decide
  have hpd : ((x, y) : Int × Int) ≠ (x, y) + aroundTilePoints S := by
    intro h
    exact hoff (self_eq_add_right.mp h)
  have hopp : WangId.oppositeIndex S < 8 := by
    rw [WangId.oppositeIndex]; omega
  refine ⟨?_, ?_, ?_, ?_, ?_⟩
  · rw [slotPainted, paintEdgeAt]
    rw [FillRegion.touch_get_ne _ _ _ _ hpd, FillRegion.touch_get_self]
    simp only [CellInfo.applyIndex]
    rw [WangId.indexColor_setIndexColor _ _ _ _ hS8,
      WangId.indexColor_setIndexColor _ _ _ _ hS8]
    simp [Nat.mod_eq_of_lt hC, WangId.FULL_MASK]
  · rw [slotPainted, paintEdgeAt]
    rw [FillRegion.touch_get_self,
      FillRegion.touch_get_ne _ _ _ _ (Ne.symm hpd)]
    simp only [CellInfo.applyIndex]
    rw [WangId.indexColor_setIndexColor _ _ _ _ hopp,
      WangId.indexColor_setIndexColor _ _ _ _ hopp]
    simp [Nat.mod_eq_of_lt hC, WangId.FULL_MASK]
  · intro j hj hjS
    rw [slotUntouched, paintEdgeAt]
    rw [FillRegion.touch_get_ne _ _ _ _ hpd, FillRegion.touch_get_self]
    simp only [CellInfo.applyIndex]
    rw [WangId.indexColor_setIndexColor _ _ _ _ hj,
      WangId.indexColor_setIndexColor _ _ _ _ hj]
    rw [if_neg hjS, if_neg hjS]
    exact ⟨rfl, rfl⟩
  · intro j hj hjO
    rw [slotUntouched, paintEdgeAt]
    rw [FillRegion.touch_get_self,
      FillRegion.touch_get_ne _ _ _ _ (Ne.symm hpd)]
    simp only [CellInfo.applyIndex]
    rw [WangId.indexColor_setIndexColor _ _ _ _ hj,
      WangId.indexColor_setIndexColor _ _ _ _ hj]
    rw [if_neg hjO, if_neg hjO]
    exact ⟨rfl, rfl⟩
  · intro q hq1 hq2
    rw [paintEdgeAt]
    constructor
    · rw [FillRegion.touch_grid_ne _ _ _ _ hq2,
        FillRegion.touch_grid_ne _ _ _ _ hq1]
    · rw [FillRegion.touch_region_ne _ _ _ _ hq2,
        FillRegion.touch_region_ne _ _ _ _ hq1]

/-- C2: on an orthogonal map with an active Edge-type Wang set, painting
color `C` at an edge slot `S` of cell `(x, y)` in single-slot mode sets slot
`S` of that cell and slot `oppositeIndex(S)` of the single neighbor across
it (the cell at the fixed per-slot offset) to `C` with a full mask, modifies
no other slot of either cell, and neither creates any other cell in the grid
nor adds any other coordinate to the region. -/
theorem c2_edge_paint (painter : WangPainter) (s : WangSet)
    (fill : FillRegion) (x y : Int) (C S : Nat)
    (hs : painter.wangSet = some s) (ht : s.type = WangSetType.Edge)
    (hm : painter.brushMode = BrushMode.PaintEdge) (hC : C < 16)
    (hSe : WangId.isCorner S = false) (hS8 : S < 8) :
    slotPainted (painter.setTerrainFill fill C (x, y) S false).2 (x, y) S C ∧
    slotPainted (painter.setTerrainFill fill C (x, y) S false).2
      ((x, y) + aroundTilePoints S) (WangId.oppositeIndex S) C ∧
    (∀ j, j < 8 → j ≠ S →
      slotUntouched (painter.setTerrainFill fill C (x, y) S false).2 fill
        (x, y) j) ∧
    (∀ j, j < 8 → j ≠ WangId.oppositeIndex S →
      slotUntouched (painter.setTerrainFill fill C (x, y) S false).2 fill
        ((x, y) + aroundTilePoints S) j) ∧
    (∀ q, q ≠ ((x, y) : Int × Int) → q ≠ (x, y) + aroundTilePoints S →
      (painter.setTerrainFill fill C (x, y) S false).2.grid q = fill.grid q ∧
      (painter.setTerrainFill fill C (x, y) S false).2.region q =
        fill.region q) := by
  have hmode : (painter.setColor C).brushMode = BrushMode.PaintEdge :=
    setColor_edge_mode painter s C hs ht hm
  have h8 : ¬S = WangId.NumIndexes := by
    rw [WangId.NumIndexes]; omega
  have hr : (painter.setTerrainFill fill C (x, y) S false).2 =
      paintEdgeAt fill C (x, y) S := by
    unfold WangPainter.setTerrainFill
    dsimp only
    rw [hmode, gDD_paintEdge_even S hSe]
    simp [generateTerrainAt, h8, resolveMode]
  rw [hr]
  exact paintEdgeAt_spec fill x y C S hC hS8

/-- Witness for C2: painting color 2 at edge Top of (0, 0) over an empty
fill fully masks slot Top of cell (0, 0) with desired color 2. -/
theorem c2_witness :
    slotPainted
      (painterEdgeW.setTerrainFill FillRegion.emptyFill 2 (0, 0) WangId.Top
        false).2
      (0, 0) WangId.Top 2 :=
  (c2_edge_paint painterEdgeW sEdgeW FillRegion.emptyFill 0 0 2 WangId.Top
      rfl rfl rfl (by decide) (by decide) (by decide)).1

/-! ## Pointwise reading of the tile-mode loop -/

theorem tileStep_get_ne (mode : BrushMode) (color : Nat) (pos q : Int × Int)
    (fill : FillRegion) (i : Nat) (h : q ≠ pos + aroundTilePoints i) :
    (tileStep mode color pos fill i).grid.get q = fill.grid.get q := by
  rw [tileStep]
  split
  · rfl
  · exact FillRegion.touch_get_ne _ _ _ _ h

theorem tileStep_get_self (mode : BrushMode) (color : Nat) (pos q : Int × Int)
    (fill : FillRegion) (i : Nat) (hq : q = pos + aroundTilePoints i)
    (h : (decide (mode = BrushMode.PaintEdge) && WangId.isCorner i) = false) :
    (tileStep mode color pos fill i).grid.get q =
      tileAdj mode color i (fill.grid.get q) := by
  subst hq
  rw [tileStep, h]
  simp only [Bool.false_eq_true, if_false]
  exact FillRegion.touch_get_self _ _ _

theorem atp_ne (i k : Nat) (hi : i < 8) (hk : k < 8) (hik : i ≠ k) :
    aroundTilePoints i ≠ aroundTilePoints k := by
  interval_cases i <;> interval_cases k <;>
    first
      | exact absurd rfl hik
      | decide

theorem atp_point_ne (x y : Int) (i k : Nat) (hi : i < 8) (hk : k < 8)
    (hik : i ≠ k) :
    ((x, y) : Int × Int) + aroundTilePoints i ≠ (x, y) + aroundTilePoints k :=
  fun heq => atp_ne i k hi hk hik (add_left_cancel heq)

theorem atp_pos_ne (x y : Int) (k : Nat) (hk : k < 8) :
    ((x, y) : Int × Int) ≠ (x, y) + aroundTilePoints k := by
  intro h
  have h0 := self_eq_add_right.mp h
  revert h0
  interval_cases k <;> decide

theorem foldl_tileStep_get_ne (mode : BrushMode) (color : Nat)
    (pos : Int × Int) (l : List Nat) (fill : FillRegion) (q : Int × Int)
    (h : ∀ k ∈ l, q ≠ pos + aroundTilePoints k) :
    (l.foldl (tileStep mode color pos) fill).grid.get q = fill.grid.get q := by
  induction l generalizing fill with
  | nil => rfl
  | cons a t ih =>
    rw [List.foldl_cons, ih _ fun k hk => h k (List.mem_cons_of_mem a hk),
      tileStep_get_ne _ _ _ _ _ _ (h a (List.mem_cons_self a t))]

theorem generateTerrainAt_tile_center (mode : BrushMode) (fill : FillRegion)
    (C d : Nat) (x y : Int) :
    (generateTerrainAt mode fill C (x, y) d true).grid.get (x, y) =
      tileCenter mode C (fill.grid.get (x, y)) := by
  rw [generateTerrainAt]
  simp only [eq_self_iff_true, if_true]
  rw [foldl_tileStep_get_ne _ _ _ _ _ _ ?_, FillRegion.touch_get_self]
  intro k hk
  fin_cases hk <;> exact atp_pos_ne x y _ (by omega)

theorem generateTerrainAt_tile_neighbor (mode : BrushMode) (fill : FillRegion)
    (C d : Nat) (x y : Int) (i : Nat) (hi : i < 8)
    (hskip : (decide (mode = BrushMode.PaintEdge) && WangId.isCorner i) =
      false) :
    (generateTerrainAt mode fill C (x, y) d true).grid.get
        ((x, y) + aroundTilePoints i) =
      tileAdj mode C i (fill.grid.get ((x, y) + aroundTilePoints i)) := by
  rw [generateTerrainAt]
  simp only [eq_self_iff_true, if_true]
  interval_cases i
  · rw [show ([0, 1, 2, 3, 4, 5, 6, 7] : List Nat) =
        [] ++ 0 :: [1, 2, 3, 4, 5, 6, 7] from rfl,
      List.foldl_append, List.foldl_cons,
      foldl_tileStep_get_ne _ _ _ _ _ _ ?_,
      tileStep_get_self _ _ _ _ _ _ rfl hskip,
      foldl_tileStep_get_ne _ _ _ _ _ _ ?_,
      FillRegion.touch_get_ne _ _ _ _ (Ne.symm (atp_pos_ne x y 0 (by omega)))]
    all_goals
      intro k hk
      fin_cases hk <;>
        exact atp_point_ne x y 0 _ (by omega) (by omega) (by omega)
  · rw [show ([0, 1, 2, 3, 4, 5, 6, 7] : List Nat) =
        [0] ++ 1 :: [2, 3, 4, 5, 6, 7] from rfl,
      List.foldl_append, List.foldl_cons,
      foldl_tileStep_get_ne _ _ _ _ _ _ ?_,
      tileStep_get_self _ _ _ _ _ _ rfl hskip,
      foldl_tileStep_get_ne _ _ _ _ _ _ ?_,
      FillRegion.touch_get_ne _ _ _ _ (Ne.symm (atp_pos_ne x y 1 (by omega)))]
    all_goals
      intro k hk
      fin_cases hk <;>
        exact atp_point_ne x y 1 _ (by omega) (by omega) (by omega)
  · rw [show ([0, 1, 2, 3, 4, 5, 6, 7] : List Nat) =
        [0, 1] ++ 2 :: [3, 4, 5, 6, 7] from rfl,
      List.foldl_append, List.foldl_cons,
      foldl_tileStep_get_ne _ _ _ _ _ _ ?_,
      tileStep_get_self _ _ _ _ _ _ rfl hskip,
      foldl_tileStep_get_ne _ _ _ _ _ _ ?_,
      FillRegion.touch_get_ne _ _ _ _ (Ne.symm (atp_pos_ne x y 2 (by omega)))]
    all_goals
      intro k hk
      fin_cases hk <;>
        exact atp_point_ne x y 2 _ (by omega) (by omega) (by omega)
  · rw [show ([0, 1, 2, 3, 4, 5, 6, 7] : List Nat) =
        [0, 1, 2] ++ 3 :: [4, 5, 6, 7] from rfl,
      List.foldl_append, List.foldl_cons,
      foldl_tileStep_get_ne _ _ _ _ _ _ ?_,
      tileStep_get_self _ _ _ _ _ _ rfl hskip,
      foldl_tileStep_get_ne _ _ _ _ _ _ ?_,
      FillRegion.touch_get_ne _ _ _ _ (Ne.symm (atp_pos_ne x y 3 (by omega)))]
    all_goals
      intro k hk
      fin_cases hk <;>
        exact atp_point_ne x y 3 _ (by omega) (by omega) (by omega)
  · rw [show ([0, 1, 2, 3, 4, 5, 6, 7] : List Nat) =
        [0, 1, 2, 3] ++ 4 :: [5, 6, 7] from rfl,
      List.foldl_append, List.foldl_cons,
      foldl_tileStep_get_ne _ _ _ _ _ _ ?_,
      tileStep_get_self _ _ _ _ _ _ rfl hskip,
      foldl_tileStep_get_ne _ _ _ _ _ _ ?_,
      FillRegion.touch_get_ne _ _ _ _ (Ne.symm (atp_pos_ne x y 4 (by omega)))]
    all_goals
      intro k hk
      fin_cases hk <;>
        exact atp_point_ne x y 4 _ (by omega) (by omega) (by omega)
  · rw [show ([0, 1, 2, 3, 4, 5, 6, 7] : List Nat) =
        [0, 1, 2, 3, 4] ++ 5 :: [6, 7] from rfl,
      List.foldl_append, List.foldl_cons,
      foldl_tileStep_get_ne _ _ _ _ _ _ ?_,
      tileStep_get_self _ _ _ _ _ _ rfl hskip,
      foldl_tileStep_get_ne _ _ _ _ _ _ ?_,
      FillRegion.touch_get_ne _ _ _ _ (Ne.symm (atp_pos_ne x y 5 (by omega)))]
    all_goals
      intro k hk
      fin_cases hk <;>
        exact atp_point_ne x y 5 _ (by omega) (by omega) (by omega)
  · rw [show ([0, 1, 2, 3, 4, 5, 6, 7] : List Nat) =
        [0, 1, 2, 3, 4, 5] ++ 6 :: [7] from rfl,
      List.foldl_append, List.foldl_cons,
      foldl_tileStep_get_ne _ _ _ _ _ _ ?_,
      tileStep_get_self _ _ _ _ _ _ rfl hskip,
      foldl_tileStep_get_ne _ _ _ _ _ _ ?_,
      FillRegion.touch_get_ne _ _ _ _ (Ne.symm (atp_pos_ne x y 6 (by omega)))]
    all_goals
      intro k hk
      fin_cases hk <;>
        exact atp_point_ne x y 6 _ (by omega) (by omega) (by omega)
  · rw [show ([0, 1, 2, 3, 4, 5, 6, 7] : List Nat) =
        [0, 1, 2, 3, 4, 5, 6] ++ 7 :: [] from rfl,
      List.foldl_append, List.foldl_cons,
      foldl_tileStep_get_ne _ _ _ _ _ _ ?_,
      tileStep_get_self _ _ _ _ _ _ rfl hskip,
      foldl_tileStep_get_ne _ _ _ _ _ _ ?_,
      FillRegion.touch_get_ne _ _ _ _ (Ne.symm (atp_pos_ne x y 7 (by omega)))]
    all_goals
      intro k hk
      fin_cases hk <;>
        exact atp_point_ne x y 7 _ (by omega) (by omega) (by omega)

/-- C6: in tile mode on an orthogonal map, painting color `C` at `(x, y)`
stamps every slot of the active brush mode on the center cell (4 corners for
PaintCorner, 4 edges for PaintEdge, all 8 for PaintEdgeAndCorner) with a
full mask, propagates each stamped slot `i` to the neighbor at the fixed
offset for `i` via `oppositeIndex(i)`, and in the corner-painting modes each
edge neighbor additionally receives the two touching corners
`(i+3) % NumIndexes` and `(i+5) % NumIndexes`; with PaintEdgeAndCorner every
one of the 8 neighbors receives the color at its opposite slot. -/
theorem c6_tile_mode (fill : FillRegion) (x y : Int) (C d : Nat)
    (hC : C < 16) :
    (∀ c, c < 4 →
      slotPainted (generateTerrainAt BrushMode.PaintCorner fill C (x, y) d
        true) (x, y) (c * 2 + 1) C) ∧
    (∀ i, i < 8 → WangId.isCorner i = true →
      slotPainted (generateTerrainAt BrushMode.PaintCorner fill C (x, y) d
        true) ((x, y) + aroundTilePoints i) (WangId.oppositeIndex i) C) ∧
    (∀ i, i < 8 → WangId.isCorner i = false →
      slotPainted (generateTerrainAt BrushMode.PaintCorner fill C (x, y) d
        true) ((x, y) + aroundTilePoints i) ((i + 3) % WangId.NumIndexes)
        C ∧
      slotPainted (generateTerrainAt BrushMode.PaintCorner fill C (x, y) d
        true) ((x, y) + aroundTilePoints i) ((i + 5) % WangId.NumIndexes)
        C) ∧
    (∀ e, e < 4 →
      slotPainted (generateTerrainAt BrushMode.PaintEdge fill C (x, y) d
        true) (x, y) (e * 2) C) ∧
    (∀ i, i < 8 → WangId.isCorner i = false →
      slotPainted (generateTerrainAt BrushMode.PaintEdge fill C (x, y) d
        true) ((x, y) + aroundTilePoints i) (WangId.oppositeIndex i) C) ∧
    (∀ i, i < 8 →
      slotPainted (generateTerrainAt BrushMode.PaintEdgeAndCorner fill C
        (x, y) d true) (x, y) i C) ∧
    (∀ i, i < 8 →
      slotPainted (generateTerrainAt BrushMode.PaintEdgeAndCorner fill C
        (x, y) d true) ((x, y) + aroundTilePoints i)
        (WangId.oppositeIndex i) C) ∧
    (∀ i, i < 8 → WangId.isCorner i = false →
      slotPainted (generateTerrainAt BrushMode.PaintEdgeAndCorner fill C
        (x, y) d true) ((x, y) + aroundTilePoints i)
        ((i + 3) % WangId.NumIndexes) C ∧
      slotPainted (generateTerrainAt BrushMode.PaintEdgeAndCorner fill C
        (x, y) d true) ((x, y) + aroundTilePoints i)
        ((i + 5) % WangId.NumIndexes) C) := by
  refine ⟨?_, ?_, ?_, ?_, ?_, ?_, ?_, ?_⟩
  · intro c hc
    simp only [slotPainted, generateTerrainAt_tile_center]
    interval_cases c <;>
      simp [tileCenter, CellInfo.applyCorner, WangId.setCornerColor,
        WangId.indexColor_setIndexColor, Nat.mod_eq_of_lt hC,
        WangId.FULL_MASK]
  · intro i hi hcor
    interval_cases i <;>
      first
        | exact absurd hcor (by decide)
        | (simp only [slotPainted]
           rw [generateTerrainAt_tile_neighbor BrushMode.PaintCorner fill C d
             x y _ (by decide) (by decide)]
           simp [tileAdj, CellInfo.applyIndex, WangId.oppositeIndex,
             WangId.isCorner, WangId.indexColor_setIndexColor,
             Nat.mod_eq_of_lt hC, WangId.FULL_MASK])
  · intro i hi hcor
    interval_cases i <;>
      first
        | exact absurd hcor (by decide)
        | (simp only [slotPainted]
           rw [generateTerrainAt_tile_neighbor BrushMode.PaintCorner fill C d
             x y _ (by decide) (by decide)]
           simp [tileAdj, CellInfo.applyIndex, WangId.oppositeIndex,
             WangId.isCorner, WangId.NumIndexes,
             WangId.indexColor_setIndexColor, Nat.mod_eq_of_lt hC,
             WangId.FULL_MASK])
  · intro e he
    simp only [slotPainted, generateTerrainAt_tile_center]
    interval_cases e <;>
      simp [tileCenter, CellInfo.applyEdge, WangId.setEdgeColor,
        WangId.indexColor_setIndexColor, Nat.mod_eq_of_lt hC,
        WangId.FULL_MASK]
  · intro i hi hcor
    interval_cases i <;>
      first
        | exact absurd hcor (by decide)
        | (simp only [slotPainted]
           rw [generateTerrainAt_tile_neighbor BrushMode.PaintEdge fill C d
             x y _ (by decide) (by decide)]
           simp [tileAdj, CellInfo.applyIndex, WangId.oppositeIndex,
             WangId.isCorner, WangId.indexColor_setIndexColor,
             Nat.mod_eq_of_lt hC, WangId.FULL_MASK])
  · intro i hi
    simp only [slotPainted, generateTerrainAt_tile_center]
    interval_cases i <;>
      simp [tileCenter, CellInfo.applyIndex,
        WangId.indexColor_setIndexColor, Nat.mod_eq_of_lt hC,
        WangId.FULL_MASK]
  · intro i hi
    interval_cases i <;>
      (simp only [slotPainted]
       rw [generateTerrainAt_tile_neighbor BrushMode.PaintEdgeAndCorner fill
         C d x y _ (by decide) (by decide)]
       simp [tileAdj, CellInfo.applyIndex, WangId.oppositeIndex,
         WangId.isCorner, WangId.NumIndexes,
         WangId.indexColor_setIndexColor, Nat.mod_eq_of_lt hC,
         WangId.FULL_MASK])
  · intro i hi hcor
    interval_cases i <;>
      first
        | exact absurd hcor (by decide)
        | (simp only [slotPainted]
           rw [generateTerrainAt_tile_neighbor BrushMode.PaintEdgeAndCorner
             fill C d x y _ (by decide) (by decide)]
           simp [tileAdj, CellInfo.applyIndex, WangId.oppositeIndex,
             WangId.isCorner, WangId.NumIndexes,
             WangId.indexColor_setIndexColor, Nat.mod_eq_of_lt hC,
             WangId.FULL_MASK])

/-- Witness for C6: PaintEdgeAndCorner tile-mode painting of color 5 at
(1, 1) over an empty fill fully masks slot 0 (Top) of the center cell. -/
theorem c6_witness :
    slotPainted
      (generateTerrainAt BrushMode.PaintEdgeAndCorner FillRegion.emptyFill 5
        (1, 1) 0 true)
      (1, 1) 0 5 :=
  ((c6_tile_mode FillRegion.emptyFill 1 1 5 0 (by decide)).2.2.2.2.2.1) 0
    (by decide)

/-! ## Equivalence of the two propagation code paths (claim C7) -/

theorem Grid.set_set_absorb (g : Grid) (p q : Int × Int) (v w u : CellInfo) :
    ((g.set p v).set q w).set p u = (g.set q w).set p u := by
  funext r
  by_cases h1 : r = p
  · simp [Grid.set, h1]
  · by_cases h2 : r = q <;> simp [Grid.set, h1, h2]

/-- The initial origin-slot write of the three-argument `setTerrain` is
absorbed by the edge-propagation path, which writes the same slot again. -/
theorem paintEdgeAt_init (fill : FillRegion) (color : Nat) (pos : Int × Int)
    (d : Nat) :
    paintEdgeAt
      (⟨fill.grid.set pos ((fill.grid.get pos).applyIndex d color),
        fill.region⟩ : FillRegion) color pos d =
      paintEdgeAt fill color pos d := by
  have h : (⟨fill.grid.set pos ((fill.grid.get pos).applyIndex d color),
        fill.region⟩ : FillRegion).touch pos
        (fun info => info.applyIndex d color) =
      fill.touch pos (fun info => info.applyIndex d color) := by
    rw [FillRegion.touch, FillRegion.touch]
    congr 1
    rw [Grid.get_set_self, Grid.set_set, CellInfo.applyIndex_idem]
  rw [paintEdgeAt, paintEdgeAt, h]

/-- The initial origin-slot write of the three-argument `setTerrain` at slot
TopLeft is absorbed by the corner-propagation loop, whose iteration `i = 1`
writes the same corner of the origin cell again. -/
theorem paintCornerAt_init (fill : FillRegion) (color : Nat)
    (pos : Int × Int) :
    paintCornerAt
      (⟨fill.grid.set pos ((fill.grid.get pos).applyIndex 7 color),
        fill.region⟩ : FillRegion) color pos =
      paintCornerAt fill color pos := by
  have hp1 : pos + aroundVertexPoints 1 = pos := by
    simp [aroundVertexPoints]
  have hp0 : pos ≠ pos + aroundVertexPoints 0 := by
    simp [aroundVertexPoints, Prod.ext_iff]
  have hidem : ∀ info : CellInfo,
      CellInfo.applyCorner (CellInfo.applyIndex info 7 color) 3 color =
        CellInfo.applyIndex info 7 color :=
    fun info => CellInfo.applyIndex_idem info 7 color
  have h : cornerStep color pos
      (cornerStep color pos
        (⟨fill.grid.set pos ((fill.grid.get pos).applyIndex 7 color),
          fill.region⟩ : FillRegion) 0) 1 =
      cornerStep color pos (cornerStep color pos fill 0) 1 := by
    simp only [cornerStep, hp1, FillRegion.touch]
    congr 1
    rw [Grid.get_set_ne _ _ _ _ (Ne.symm hp0), Grid.get_set_ne _ _ _ _ hp0,
      Grid.get_set_ne _ _ _ _ hp0, Grid.get_set_self, hidem,
      Grid.set_set_absorb _ _ _ _ _ _]
    rfl
  simp only [paintCornerAt, List.foldl]
  rw [h]

/-- C7 counterexample: with brush mode PaintCorner, painting direction
BottomRight at (0, 0) on an empty fill, the three-argument `setTerrain`
additionally writes the requested slot (index 3) into the origin cell, which
the non-tile-mode branch of `generateTerrainAt` does not — the two paths are
not behaviorally equivalent. -/
theorem c7_counterexample :
    setTerrainIndex BrushMode.PaintCorner FillRegion.emptyFill 1 (0, 0)
        WangId.BottomRight ≠
      generateTerrainAt BrushMode.PaintCorner FillRegion.emptyFill 1 (0, 0)
        WangId.BottomRight false := by
  intro h
  have h3 := congrArg
    (fun f => (f.grid.get (0, 0)).mask.indexColor WangId.BottomRight) h
  revert h3
  decide

/-- C7 amended: the three-argument `setTerrain` and the non-tile-mode branch
of `generateTerrainAt` coincide exactly when the per-call resolved brush
mode is PaintEdge with a direction below NumIndexes, or PaintCorner with
direction TopLeft (the only direction the brush-mode normalizer produces for
corner painting); otherwise `setTerrain` additionally writes the requested
slot into the origin cell — without adding it to the region and without
`generateTerrainAt`'s NumIndexes guard. -/
theorem c7_setTerrain_equiv (mode : BrushMode) (fill : FillRegion)
    (color : Nat) (pos : Int × Int) (d : Nat)
    (h : (resolveMode mode d = BrushMode.PaintEdge ∧ d < 8) ∨
      (resolveMode mode d = BrushMode.PaintCorner ∧ d = WangId.TopLeft)) :
    setTerrainIndex mode fill color pos d =
      generateTerrainAt mode fill color pos d false := by
  obtain ⟨hm, hd⟩ | ⟨hm, hd⟩ := h
  · have h8 : ¬d = WangId.NumIndexes := by
      rw [WangId.NumIndexes]; omega
    rw [setTerrainIndex, generateTerrainAt, if_neg Bool.false_ne_true,
      if_neg h8, hm]
    exact paintEdgeAt_init fill color pos d
  · subst hd
    rw [setTerrainIndex, generateTerrainAt, if_neg Bool.false_ne_true,
      if_neg (by decide : ¬WangId.TopLeft = WangId.NumIndexes), hm]
    exact paintCornerAt_init fill color pos

/-- Witness for C7 amended: in PaintEdge mode with direction Top the two
code paths produce identical fills. -/
theorem c7_witness :
    setTerrainIndex BrushMode.PaintEdge FillRegion.emptyFill 2 (0, 0)
        WangId.Top =
      generateTerrainAt BrushMode.PaintEdge FillRegion.emptyFill 2 (0, 0)
        WangId.Top false :=
  c7_setTerrain_equiv BrushMode.PaintEdge FillRegion.emptyFill 2 (0, 0)
    WangId.Top (Or.inl ⟨rfl, by decide⟩)

/-! ## The region invariant (claim C8) -/

theorem touch_inv (fill : FillRegion) (p : Int × Int) (f : CellInfo → CellInfo)
    (h : FillInv fill) : FillInv (fill.touch p f) := by
  intro q i hi hm
  by_cases hq : q = p
  · subst hq
    exact FillRegion.touch_region_self _ _ _
  · rw [FillRegion.touch_get_ne _ _ _ _ hq] at hm
    exact FillRegion.touch_region_mono _ _ _ _ (h q i hi hm)

theorem tileStep_inv (mode : BrushMode) (color : Nat) (pos : Int × Int)
    (fill : FillRegion) (i : Nat) (h : FillInv fill) :
    FillInv (tileStep mode color pos fill i) := by
  rw [tileStep]
  split
  · exact h
  · exact touch_inv _ _ _ h

theorem foldl_tileStep_inv (mode : BrushMode) (color : Nat)
    (pos : Int × Int) (l : List Nat) (fill : FillRegion) (h : FillInv fill) :
    FillInv (l.foldl (tileStep mode color pos) fill) := by
  induction l generalizing fill with
  | nil => exact h
  | cons a t ih => exact ih _ (tileStep_inv _ _ _ _ _ h)

theorem cornerStep_inv (color : Nat) (pos : Int × Int) (fill : FillRegion)
    (i : Nat) (h : FillInv fill) : FillInv (cornerStep color pos fill i) :=
  touch_inv _ _ _ h

theorem foldl_cornerStep_inv (color : Nat) (pos : Int × Int) (l : List Nat)
    (fill : FillRegion) (h : FillInv fill) :
    FillInv (l.foldl (cornerStep color pos) fill) := by
  induction l generalizing fill with
  | nil => exact h
  | cons a t ih => exact ih _ (cornerStep_inv _ _ _ _ h)

theorem generateTerrainAt_inv (mode : BrushMode) (fill : FillRegion)
    (color : Nat) (pos : Int × Int) (direction : Nat) (useTileMode : Bool)
    (h : FillInv fill) :
    FillInv (generateTerrainAt mode fill color pos direction useTileMode) := by
  rw [generateTerrainAt]
  cases useTileMode
  · simp only [Bool.false_eq_true, if_false]
    by_cases h8 : direction = WangId.NumIndexes
    · rw [if_pos h8]; exact h
    · rw [if_neg h8]
      split
      · exact foldl_cornerStep_inv _ _ _ _ h
      · rw [paintEdgeAt]
        exact touch_inv _ _ _ (touch_inv _ _ _ h)
      · exact h
  · simp only [eq_self_iff_true, if_true]
    exact foldl_tileStep_inv _ _ _ _ _ (touch_inv _ _ _ h)

theorem touch_region_le (fill : FillRegion) (p : Int × Int)
    (f : CellInfo → CellInfo) (q : Int × Int) (h : fill.region q = true) :
    (fill.touch p f).region q = true :=
  FillRegion.touch_region_mono _ _ _ _ h

theorem tileStep_region_le (mode : BrushMode) (color : Nat)
    (pos : Int × Int) (fill : FillRegion) (i : Nat) (q : Int × Int)
    (h : fill.region q = true) :
    (tileStep mode color pos fill i).region q = true := by
  rw [tileStep]
  split
  · exact h
  · exact touch_region_le _ _ _ _ h

theorem foldl_tileStep_region_le (mode : BrushMode) (color : Nat)
    (pos : Int × Int) (l : List Nat) (fill : FillRegion) (q : Int × Int)
    (h : fill.region q = true) :
    (l.foldl (tileStep mode color pos) fill).region q = true := by
  induction l generalizing fill with
  | nil => exact h
  | cons a t ih => exact ih _ (tileStep_region_le _ _ _ _ _ _ h)

theorem foldl_cornerStep_region_le (color : Nat) (pos : Int × Int)
    (l : List Nat) (fill : FillRegion) (q : Int × Int)
    (h : fill.region q = true) :
    (l.foldl (cornerStep color pos) fill).region q = true := by
  induction l generalizing fill with
  | nil => exact h
  | cons a t ih => exact ih _ (touch_region_le _ _ _ _ h)

theorem generateTerrainAt_region_le (mode : BrushMode) (fill : FillRegion)
    (color : Nat) (pos : Int × Int) (direction : Nat) (useTileMode : Bool)
    (q : Int × Int) (h : fill.region q = true) :
    (generateTerrainAt mode fill color pos direction useTileMode).region q =
      true := by
  rw [generateTerrainAt]
  cases useTileMode
  · simp only [Bool.false_eq_true, if_false]
    by_cases h8 : direction = WangId.NumIndexes
    · rw [if_pos h8]; exact h
    · rw [if_neg h8]
      split
      · exact foldl_cornerStep_region_le _ _ _ _ _ h
      · rw [paintEdgeAt]
        exact touch_region_le _ _ _ _ (touch_region_le _ _ _ _ h)
      · exact h
  · simp only [eq_self_iff_true, if_true]
    exact foldl_tileStep_region_le _ _ _ _ _ _ (touch_region_le _ _ _ _ h)

/-- C8: the constraint grid starts empty (and the empty fill satisfies the
region invariant); every paint operation preserves the invariant that each
coordinate with any masked slot is contained in the accumulated region; the
region grows monotonically across paint operations; and the fill is reset to
empty by `clear()` and at the end of every successful `commit()`. -/
theorem c8_region_invariant :
    FillInv FillRegion.emptyFill ∧
    (∀ (mode : BrushMode) (fill : FillRegion) (color : Nat)
        (pos : Int × Int) (direction : Nat) (useTileMode : Bool),
      FillInv fill →
      FillInv (generateTerrainAt mode fill color pos direction
        useTileMode)) ∧
    (∀ (mode : BrushMode) (fill : FillRegion) (color : Nat)
        (pos : Int × Int) (direction : Nat) (useTileMode : Bool)
        (q : Int × Int),
      fill.region q = true →
      (generateTerrainAt mode fill color pos direction useTileMode).region
        q = true) ∧
    (∀ painter : WangPainter,
      painter.clear.currentFill = FillRegion.emptyFill) ∧
    (∀ (painter : WangPainter) (resolver : Resolver) (layer : TileLayer)
        (out : TileLayer × WangPainter),
      painter.commit resolver layer = some out →
      out.2.currentFill = FillRegion.emptyFill) := by
  refine ⟨?_, ?_, ?_, ?_, ?_⟩
  · intro q i hi hm
    simp [FillRegion.emptyFill, Grid.get, Grid.emptyGrid, CellInfo.emptyInfo,
      WangId.indexColor_emptyId] at hm
  · intro mode fill color pos direction useTileMode h
    exact generateTerrainAt_inv _ _ _ _ _ _ h
  · intro mode fill color pos direction useTileMode q h
    exact generateTerrainAt_region_le _ _ _ _ _ _ _ h
  · intro painter
    rfl
  · intro painter resolver layer out h
    unfold WangPainter.commit at h
    rcases hws : painter.wangSet with _ | s
    · rw [hws] at h
      exact absurd h (by simp)
    · rw [hws] at h
      dsimp only at h
      injection h with h2
      rw [← h2]
      rfl

/-- Witness for C8: the invariant-preservation conjunct applied to a
concrete corner paint over the empty fill. -/
theorem c8_witness :
    FillInv (generateTerrainAt BrushMode.PaintCorner FillRegion.emptyFill 1
      (0, 0) WangId.TopLeft false) :=
  c8_region_invariant.2.1 BrushMode.PaintCorner FillRegion.emptyFill 1
    (0, 0) WangId.TopLeft false
    (by
      intro q i hi hm
      simp [FillRegion.emptyFill, Grid.get, Grid.emptyGrid,
        CellInfo.emptyInfo, WangId.indexColor_emptyId] at hm)

/-! ## The commit path (claim C3) -/

theorem writeStamp_cons (e : (Int × Int) × Cell)
    (t : List ((Int × Int) × Cell)) (layer : TileLayer) :
    writeStamp (e :: t) layer = writeStamp t (writeCell layer e) := rfl

theorem writeCell_ne (ly : TileLayer) (e : (Int × Int) × Cell)
    (q : Int × Int) (hq : q ≠ e.1) : writeCell ly e q = ly q := by
  rcases e with ⟨p, c⟩
  rcases c with ⟨tl, ck⟩
  rcases tl with _ | t
  · rfl
  · simp only [writeCell]
    rw [if_neg hq]

theorem writeCell_none (ly : TileLayer) (e : (Int × Int) × Cell)
    (h : e.2.tile = none) : writeCell ly e = ly := by
  rcases e with ⟨p, c⟩
  rcases c with ⟨tl, ck⟩
  simp only at h
  subst h
  rfl

theorem writeStamp_not_covered (stamp : List ((Int × Int) × Cell)) :
    ∀ (layer : TileLayer) (q : Int × Int),
      (∀ c, (q, c) ∈ stamp → c.tile = none) →
      writeStamp stamp layer q = layer q := by
  induction stamp with
  | nil => intro layer q _; rfl
  | cons e t ih =>
    intro layer q h
    rw [writeStamp_cons,
      ih _ q fun c hm => h c (List.mem_cons_of_mem _ hm)]
    by_cases hq : q = e.1
    · rcases e with ⟨p, c⟩
      subst hq
      rw [writeCell_none _ _ (h c (List.mem_cons_self _ _))]
    · exact writeCell_ne _ _ _ hq

theorem writeStamp_covered (stamp : List ((Int × Int) × Cell)) :
    ∀ (layer : TileLayer) (q : Int × Int),
      (∃ c, (q, c) ∈ stamp ∧ c.tile ≠ none) →
      ∃ cw, (q, cw) ∈ stamp ∧ cw.tile ≠ none ∧
        writeStamp stamp layer q = some cw := by
  induction stamp with
  | nil =>
    intro layer q h
    obtain ⟨c, hm, _⟩ := h
    exact absurd hm (by simp)
  | cons e t ih =>
    intro layer q hex
    obtain ⟨p, c⟩ := e
    by_cases hrest : ∃ c, (q, c) ∈ t ∧ c.tile ≠ none
    · obtain ⟨cw, hm, htl, heq⟩ := ih (writeCell layer (p, c)) q hrest
      exact ⟨cw, List.mem_cons_of_mem _ hm, htl, by
        rw [writeStamp_cons]; exact heq⟩
    · obtain ⟨c0, hm, ht0⟩ := hex
      rcases List.mem_cons.mp hm with he | hm'
      · injection he with he1 he2
        subst he2
        subst he1
        refine ⟨c0, List.mem_cons_self _ _, ht0, ?_⟩
        rw [writeStamp_cons, writeStamp_not_covered t _ q
          fun c' hm2 => by
            by_contra hne
            exact hrest ⟨c', hm2, hne⟩]
        rcases c0 with ⟨tl0, ck0⟩
        rcases tl0 with _ | tl
        · exact absurd rfl ht0
        · simp [writeCell]
      · exact absurd ⟨c0, hm', ht0⟩ hrest

/-- C3 counterexample: with no active Wang set, `commit` does not fail
silently — the source builds `WangFiller{*mWangSet, ...}` through the null
Wang set pointer with no guard, so the call never returns normally (rendered
as `none` in the embedding) instead of writing no tiles and returning. -/
theorem c3_counterexample :
    WangPainter.commit painterIdleW resolverEmpty layerEmpty = none := rfl

/-- C3 amended: with an *active* Wang set, `commit` invokes the resolver on
the accumulated region and constraint grid, writes exactly the stamp's
tile-bearing cells into the target layer at their positions (every
uncovered cell unchanged; every covered cell receives one of the stamp's
tile-bearing cells for it), and clears the in-progress fill; when the
resolver yields no cells on the empty fill, `clear()` immediately followed
by `commit()` writes zero cells.  With no active Wang set the source
dereferences the null pointer rather than failing silently. -/
theorem c3_commit_spec (painter : WangPainter) (s : WangSet)
    (resolver : Resolver) (layer : TileLayer)
    (hs : painter.wangSet = some s) :
    (∃ layerOut, painter.commit resolver layer =
        some (layerOut, painter.clear) ∧
      (∀ q, (∀ c, (q, c) ∈ resolver painter.currentFill.region
            painter.currentFill.grid → c.tile = none) →
        layerOut q = layer q) ∧
      (∀ q c, (q, c) ∈ resolver painter.currentFill.region
            painter.currentFill.grid → c.tile ≠ none →
        ∃ cw, (q, cw) ∈ resolver painter.currentFill.region
            painter.currentFill.grid ∧ cw.tile ≠ none ∧
          layerOut q = some cw)) ∧
    (resolver Region.emptyRegion Grid.emptyGrid = [] →
      painter.clear.commit resolver layer = some (layer, painter.clear)) := by
  constructor
  · refine ⟨writeStamp (resolver painter.currentFill.region
      painter.currentFill.grid) layer, ?_, ?_, ?_⟩
    · unfold WangPainter.commit
      rw [hs]
    · intro q hnone
      exact writeStamp_not_covered _ layer q hnone
    · intro q c hm htl
      exact writeStamp_covered _ layer q ⟨c, hm, htl⟩
  · intro hres
    have hs2 : painter.clear.wangSet = some s := hs
    unfold WangPainter.commit
    rw [hs2]
    dsimp only
    have hfill : painter.clear.currentFill = FillRegion.emptyFill := rfl
    rw [hfill]
    rw [show FillRegion.emptyFill.region = Region.emptyRegion from rfl,
      show FillRegion.emptyFill.grid = Grid.emptyGrid from rfl, hres]
    rfl

/-- Witness for C3 amended: committing the empty fill of the Corner-set
painter through the empty resolver succeeds and leaves the empty layer
unchanged at the origin. -/
theorem c3_witness :
    painterCornerW.clear.commit resolverEmpty layerEmpty =
      some (layerEmpty, painterCornerW.clear) :=
  (c3_commit_spec painterCornerW sCornerW resolverEmpty layerEmpty rfl).2 rfl

end Tiled
